import Mathlib

/-!
Verification of the ScrapIt email-management core (sync engine,
classification runner, bulk operation executor, frontend API client)
against its natural-language specification.

The repository ships the React frontend and design documents; the backend
sync/classification/bulk core itself (FastAPI + Celery, per the docs) is
not present in the source tree, so those components are modelled from the
specification's contracts (each such definition is marked
"Modelled from the spec:").  The frontend axios client and its
interceptors are embedded directly from `frontend/src/services/api.ts`.
-/

namespace ScrapIt

/-- Provider-side message metadata, as returned by the Mailbox Provider's
per-message fetch (`fetchMessages`). -/
structure Msg where
  msgId : String
  subject : String
  sender : String
  recipient : String
  snippet : String
  contentBody : Option String
  labels : List String
  receivedAt : Nat
  deriving DecidableEq, Repr

/-- Modelled from the spec: the Email row of the data model (§3), one row
per provider message, scoped to one account. -/
structure Email where
  id : Nat
  accountId : Nat
  providerMessageId : String
  subject : String
  sender : String
  recipient : String
  snippet : String
  contentBody : Option String
  labels : List String
  receivedAt : Nat
  category : Option String
  confidenceScore : Option ℚ
  isSpam : Bool
  isProcessed : Bool
  isDeleted : Bool
  isArchived : Bool
  deriving DecidableEq, Repr

/-- Modelled from the spec: per-account incremental sync position (§3). -/
structure SyncCursor where
  lastSyncedAt : Nat
  lastSeenProviderTimestamp : Nat
  deriving DecidableEq, Repr

/-- The relational store for one account: Email rows, the account's sync
cursor, and the internal-id allocator. -/
structure Store where
  rows : List Email
  cursor : SyncCursor
  nextId : Nat
  deriving DecidableEq, Repr

/-- The initial store for an account that has never synced. -/
def emptyStore : Store :=
  { rows := [], cursor := { lastSyncedAt := 0, lastSeenProviderTimestamp := 0 }, nextId := 0 }

/-- Mailbox Provider behaviour for one listing query: pages of message ids
(continuation token = page index) and a per-message fetch that may fail
(`none` models a fetch/parse failure on an individual message). -/
structure Provider where
  pages : List (List String)
  fetch : String → Option Msg

/-- One step of the provider's paginated listing: the page at a token and
the continuation token of the next page, if any. -/
def listMessageIds (p : Provider) (tok : Nat) : List String × Option Nat :=
  (p.pages.getD tok [], if tok + 1 < p.pages.length then some (tok + 1) else none)

/-- Fuel-bounded loop following continuation tokens; the fuel is chosen in
`followTokens` so that it never runs out before the tokens are exhausted. -/
def followTokensAux (p : Provider) : Nat → Nat → List String
  | tok, 0 => (listMessageIds p tok).1
  | tok, fuel + 1 =>
    match (listMessageIds p tok).2 with
    | some t => (listMessageIds p tok).1 ++ followTokensAux p t fuel
    | none => (listMessageIds p tok).1

/-- Modelled from the spec: the engine follows continuation tokens until
exhausted (§4.1 pagination), accumulating every listed message id. -/
def followTokens (p : Provider) (tok : Nat) : List String :=
  followTokensAux p tok (p.pages.length - tok)

/-- Accumulator-based chunking: `cur` holds the current chunk reversed and
always shorter than `m`. -/
def chunkAcc (m : Nat) : List String → List String → List (List String)
  | cur, [] => if cur = [] then [] else [cur.reverse]
  | cur, x :: xs =>
      if m ≤ cur.length + 1 then (x :: cur).reverse :: chunkAcc m [] xs
      else chunkAcc m (x :: cur) xs

/-- Modelled from the spec: message ids are grouped into batches of
`batchSize` (§4.1 batching); a batch size of zero is treated as one to
guarantee progress. -/
def chunkList (n : Nat) (xs : List String) : List (List String) :=
  chunkAcc (max n 1) [] xs

/-- Modelled from the spec: a fresh Email row created on first sighting of
a provider message id; classification state starts empty (§3 lifecycle). -/
def newEmail (acct internalId : Nat) (m : Msg) : Email :=
  { id := internalId, accountId := acct, providerMessageId := m.msgId,
    subject := m.subject, sender := m.sender, recipient := m.recipient,
    snippet := m.snippet, contentBody := m.contentBody,
    labels := m.labels, receivedAt := m.receivedAt,
    category := none, confidenceScore := none, isSpam := false,
    isProcessed := false, isDeleted := false, isArchived := false }

/-- Modelled from the spec: the metadata refresh applied on re-sync of an
existing row — updates the mutable fields (labels, content snapshot,
received timestamp) and leaves classification state untouched (§4.1). -/
def refreshEmail (e : Email) (m : Msg) : Email :=
  { e with subject := m.subject, sender := m.sender, recipient := m.recipient,
           snippet := m.snippet, contentBody := m.contentBody,
           labels := m.labels, receivedAt := m.receivedAt }

/-- Modelled from the spec: upsert by `providerMessageId` — insert if
absent, else update mutable fields only (§4.1).  Returns the new store and
whether the row was newly inserted. -/
def upsertMsg (acct : Nat) (st : Store) (m : Msg) : Store × Bool :=
  if st.rows.any (fun e => e.providerMessageId = m.msgId) then
    let rows := st.rows.map (fun e => if e.providerMessageId = m.msgId then refreshEmail e m else e)
    ({ st with rows := rows }, false)
  else
    ({ st with rows := st.rows ++ [newEmail acct st.nextId m], nextId := st.nextId + 1 }, true)

/-- Sync outcome counters (§4.1 contract). -/
structure SyncResult where
  newCount : Nat
  updatedCount : Nat
  errorCount : Nat
  batchesProcessed : Nat
  deriving DecidableEq, Repr

/-- The zero sync result. -/
def SyncResult.empty : SyncResult :=
  { newCount := 0, updatedCount := 0, errorCount := 0, batchesProcessed := 0 }

/-- Total number of messages a sync result accounts for: every processed
id lands in exactly one of the new / updated / error counters. -/
def resultTotal (r : SyncResult) : Nat := r.newCount + r.updatedCount + r.errorCount

/-- Modelled from the spec: processing of a single listed message id inside
a batch — a failed fetch increments `errorCount` and is skipped; a fetched
message is upserted (§4.1 failure handling). -/
def upsertStep (acct : Nat) (p : Provider) (acc : Store × SyncResult) (mid : String) :
    Store × SyncResult :=
  match p.fetch mid with
  | none => (acc.1, { acc.2 with errorCount := acc.2.errorCount + 1 })
  | some m =>
    let r := upsertMsg acct acc.1 m
    (r.1, if r.2 then { acc.2 with newCount := acc.2.newCount + 1 }
          else { acc.2 with updatedCount := acc.2.updatedCount + 1 })

/-- The largest provider timestamp among the successfully fetched messages
of a batch (zero when none fetch). -/
def batchMaxTs (p : Provider) (ids : List String) : Nat :=
  ids.foldl (fun acc i => match p.fetch i with
    | some m => max acc m.receivedAt
    | none => acc) 0

/-- Modelled from the spec: after a batch's rows are committed the cursor
watermark is advanced, never decreased (§4.1 commit discipline). -/
def commitCursor (p : Provider) (ids : List String) (st : Store) : Store :=
  { st with cursor := { st.cursor with
      lastSeenProviderTimestamp :=
        max st.cursor.lastSeenProviderTimestamp (batchMaxTs p ids) } }

/-- Modelled from the spec: one batch — fetch and upsert each id, commit
the rows, then and only then advance the cursor (§4.1). -/
def processBatch (acct : Nat) (p : Provider) (acc : Store × SyncResult) (ids : List String) :
    Store × SyncResult :=
  let r := ids.foldl (upsertStep acct p) acc
  (commitCursor p ids r.1, { r.2 with batchesProcessed := r.2.batchesProcessed + 1 })

/-- Sync mode (§4.1): incremental uses the cursor watermark, full ignores
it. -/
inductive SyncMode where
  | incremental
  | full
  deriving DecidableEq, Repr

/-- A provider listing query: optional lower timestamp bound and optional
label restriction (`none` = all labels/folders). -/
structure Query where
  afterTs : Option Nat
  labels : Option (List String)
  deriving DecidableEq, Repr

/-- Modelled from the spec: incremental mode constrains the query to
messages newer than the cursor watermark and to `targetLabels` if given
(default: all labels/folders); full mode requests every message (§4.1). -/
def buildQuery (mode : SyncMode) (cur : SyncCursor) (targetLabels : Option (List String)) :
    Query :=
  match mode with
  | SyncMode.incremental =>
      { afterTs := some cur.lastSeenProviderTimestamp, labels := targetLabels }
  | SyncMode.full => { afterTs := none, labels := none }

/-- Arguments of one sync call (§4.1 contract). -/
structure SyncCall where
  mode : SyncMode
  batchSize : Nat
  maxResults : Option Nat
  targetLabels : Option (List String)

/-- Modelled from the spec: the Sync Engine entry point (§4.1) — build the
query, follow pagination tokens until exhausted (capped only when the
caller passes `maxResults`), group into batches, and process each batch
with its own commit and cursor advance.  `qp` is the provider's behaviour
as a function of the listing query. -/
def sync (acct : Nat) (qp : Query → Provider) (c : SyncCall) (st : Store) :
    Store × SyncResult :=
  let q := buildQuery c.mode st.cursor c.targetLabels
  let p := qp q
  let allIds := followTokens p 0
  let ids := match c.maxResults with
    | some n => allIds.take n
    | none => allIds
  (chunkList c.batchSize ids).foldl (processBatch acct p) (st, SyncResult.empty)

/-- A sequence of sync calls for one account, each with the provider
behaviour in effect at that time (providers may return repeated or
overlapping ids across calls, pages and batches). -/
def runSyncs (acct : Nat) (calls : List (SyncCall × (Query → Provider))) (st : Store) :
    Store :=
  calls.foldl (fun s c => (sync acct c.2 c.1 s).1) st

/-- Provider message ids of the rows, in row order. -/
def pids (rows : List Email) : List String :=
  rows.map (fun e => e.providerMessageId)

/-- Number of rows carrying a given provider message id. -/
def countPid (rows : List Email) (x : String) : Nat :=
  rows.countP (fun e => e.providerMessageId = x)

/-- A concrete provider message used by witnesses. -/
def testMsg (i : String) (ts : Nat) : Msg :=
  { msgId := i, subject := "s", sender := "alice", recipient := "bob",
    snippet := "sn", contentBody := none, labels := ["INBOX"], receivedAt := ts }

/-- A concrete provider whose two pages overlap on message id m2. -/
def testProvider : Provider :=
  { pages := [["m1", "m2"], ["m2", "m3"]],
    fetch := fun i =>
      if i = "m1" then some (testMsg "m1" 5)
      else if i = "m2" then some (testMsg "m2" 7)
      else if i = "m3" then some (testMsg "m3" 9)
      else none }

/-- A concrete incremental sync call with batch size 2 and no caps. -/
def testIncCall : SyncCall :=
  { mode := SyncMode.incremental, batchSize := 2, maxResults := none, targetLabels := none }

/-- A concrete full sync call with batch size 2 and no caps. -/
def testFullCall : SyncCall :=
  { mode := SyncMode.full, batchSize := 2, maxResults := none, targetLabels := none }

/-- A concrete incremental sync call whose caller passes maxResults 1. -/
def testCappedCall : SyncCall :=
  { mode := SyncMode.incremental, batchSize := 2, maxResults := some 1,
    targetLabels := none }

/-- A concrete already-classified Email row used by witnesses. -/
def testClassifiedEmail : Email :=
  { id := 1, accountId := 0, providerMessageId := "m1", subject := "old",
    sender := "alice", recipient := "bob", snippet := "oldsn", contentBody := none,
    labels := ["INBOX", "SPAM"], receivedAt := 3,
    category := some "spam", confidenceScore := some ((97 : ℚ) / 100),
    isSpam := true, isProcessed := true, isDeleted := false, isArchived := false }

/-- A concrete one-row store holding a classified email. -/
def testStore1 : Store :=
  { rows := [testClassifiedEmail],
    cursor := { lastSyncedAt := 0, lastSeenProviderTimestamp := 3 }, nextId := 2 }

/-- Modelled from the spec: a per-item entry of the Classification API's
structured response (§4.2, §6). -/
structure ClassEntry where
  category : String
  confidenceScore : ℚ
  isSpam : Bool
  deriving DecidableEq, Repr

/-- Classification outcome counters (§4.2 contract). -/
structure ClassificationResult where
  processed : Nat
  succeeded : Nat
  failed : Nat
  deriving DecidableEq, Repr

/-- Modelled from the spec: writing one valid response item back to a
row — category, confidence and spam flag are overwritten and
`isProcessed` is set (§4.2). -/
def applyEntry (e : Email) (c : ClassEntry) : Email :=
  { e with category := some c.category, confidenceScore := some c.confidenceScore,
           isSpam := c.isSpam, isProcessed := true }

/-- Modelled from the spec: the default classification selector —
unprocessed and not soft-deleted (§4.2 contract). -/
def defaultSelector (e : Email) : Bool := !e.isProcessed && !e.isDeleted

/-- The per-row effect of one classification batch given the per-item
response lookup `f`: rows outside the batch, and batch items whose entry
is malformed (`f id = none`), are left untouched. -/
def classifyRow (batch : List Nat) (f : Nat → Option ClassEntry) (e : Email) : Email :=
  if e.id ∈ batch then
    match f e.id with
    | some c => applyEntry e c
    | none => e
  else e

/-- Modelled from the spec: committing one batch of the Classification
Runner (§4.2 partial failure): a whole-call failure (`resp = none`)
commits nothing and marks nothing processed; under a response, exactly the
malformed items stay unprocessed and the valid ones are committed.
`processed` counts every attempted item. -/
def classifyBatch (rows : List Email) (batch : List Nat)
    (resp : Option (Nat → Option ClassEntry)) : List Email × ClassificationResult :=
  match resp with
  | none => (rows, { processed := batch.length, succeeded := 0, failed := batch.length })
  | some f =>
    (rows.map (classifyRow batch f),
     { processed := batch.length,
       succeeded := batch.countP (fun i => (f i).isSome),
       failed := batch.countP (fun i => (f i).isNone) })

/-- Modelled from the spec: the Classification Runner entry point over the
default selector (§4.2 contract). -/
def classify (rows : List Email) (resp : Option (Nat → Option ClassEntry)) :
    List Email × ClassificationResult :=
  classifyBatch rows ((rows.filter defaultSelector).map (fun e => e.id)) resp

/-- A concrete unprocessed, unclassified Email row. -/
def testUnprocessed (n : Nat) (pid : String) : Email :=
  { id := n, accountId := 0, providerMessageId := pid, subject := "s",
    sender := "a", recipient := "b", snippet := "sn", contentBody := none,
    labels := ["INBOX"], receivedAt := n, category := none, confidenceScore := none,
    isSpam := false, isProcessed := false, isDeleted := false, isArchived := false }

/-- A concrete valid classification entry. -/
def testEntry1 : ClassEntry :=
  { category := "spam", confidenceScore := (97 : ℚ) / 100, isSpam := true }

/-- A second concrete classification entry with a different category. -/
def testEntry2 : ClassEntry :=
  { category := "work", confidenceScore := (1 : ℚ) / 2, isSpam := false }

/-- A concrete response: valid entry for id 1, malformed for all others. -/
def testRespF : Nat → Option ClassEntry :=
  fun i => if i = 1 then some testEntry1 else none

/-- A concrete response mapping every id to `testEntry2`. -/
def testRespG : Nat → Option ClassEntry := fun _ => some testEntry2

/-- Operation type of a bulk call (§4.3 contract). -/
inductive OpType where
  | delete
  | archive
  | applyLabel (label : String)
  deriving DecidableEq, Repr

/-- Events emitted while executing a bulk operation, in order: a
provider-side mutation attempt (trash / label change) with its outcome, or
the marking of the local row. -/
inductive BulkEv where
  | providerCall (emailId : Nat) (ok : Bool)
  | localMark (emailId : Nat)
  deriving DecidableEq, Repr

/-- Per-id outcome collector of a bulk call (§4.3 contract). -/
structure BulkResult where
  succeeded : List Nat
  failed : List (Nat × String)
  deriving DecidableEq, Repr

/-- Modelled from the spec: whether a row is already in the terminal state
of the requested operation (§4.3 pre-condition). -/
def isTerminal (op : OpType) (e : Email) : Bool :=
  match op with
  | OpType.delete => e.isDeleted
  | OpType.archive => e.isArchived
  | OpType.applyLabel l => e.labels.contains l

/-- Modelled from the spec: the local row mutation applied only after the
provider-side mutation succeeds (§4.3). -/
def applyOp (op : OpType) (e : Email) : Email :=
  match op with
  | OpType.delete => { e with isDeleted := true }
  | OpType.archive => { e with isArchived := true, labels := e.labels.erase "INBOX" }
  | OpType.applyLabel l => { e with labels := e.labels ++ [l] }

/-- Modelled from the spec: execution of one bulk target id (§4.3):
missing row (or a row of another account) is a per-id precondition
failure; an already-terminal row is an idempotent no-op success with no
provider call; otherwise the provider mutation is attempted first and the
local row is marked only after it succeeds, a provider failure being
recorded per-id. -/
def execOne (acct : Nat) (provOk : Nat → Bool) (op : OpType)
    (acc : List Email × BulkResult × List BulkEv) (tid : Nat) :
    List Email × BulkResult × List BulkEv :=
  match acc.1.find? (fun e => e.id = tid && e.accountId = acct) with
  | none =>
      (acc.1, { acc.2.1 with failed := acc.2.1.failed ++ [(tid, "precondition_failed")] },
       acc.2.2)
  | some e =>
      if isTerminal op e then
        (acc.1, { acc.2.1 with succeeded := acc.2.1.succeeded ++ [tid] }, acc.2.2)
      else if provOk tid then
        (acc.1.map (fun r => if r.id = tid && r.accountId = acct then applyOp op r else r),
         { acc.2.1 with succeeded := acc.2.1.succeeded ++ [tid] },
         acc.2.2 ++ [BulkEv.providerCall tid true, BulkEv.localMark tid])
      else
        (acc.1, { acc.2.1 with failed := acc.2.1.failed ++ [(tid, "provider_error")] },
         acc.2.2 ++ [BulkEv.providerCall tid false])

/-- Modelled from the spec: the Bulk Operation Executor entry point (§4.3)
— per-target processing with per-id outcome recording and no
all-or-nothing abort. -/
def execute (acct : Nat) (provOk : Nat → Bool) (op : OpType) (rows : List Email)
    (targetIds : List Nat) : List Email × BulkResult × List BulkEv :=
  targetIds.foldl (execOne acct provOk op) (rows, { succeeded := [], failed := [] }, [])

/-- A trace is provider-first when, scanning left to right, every local
mark is for an id already confirmed by a successful provider call. -/
def marksCovered (called : List Nat) : List BulkEv → Bool
  | [] => true
  | BulkEv.providerCall i true :: rest => marksCovered (i :: called) rest
  | BulkEv.providerCall _ false :: rest => marksCovered called rest
  | BulkEv.localMark i :: rest => called.contains i && marksCovered called rest

/-- Ids confirmed by a successful provider call after scanning a trace. -/
def calledAfter (called : List Nat) : List BulkEv → List Nat
  | [] => called
  | BulkEv.providerCall i true :: rest => calledAfter (i :: called) rest
  | BulkEv.providerCall _ false :: rest => calledAfter called rest
  | BulkEv.localMark _ :: rest => calledAfter called rest

/-- The identity of a row: internal id, account and provider message id —
the part no core operation may change or remove. -/
def rowKey (e : Email) : Nat × Nat × String := (e.id, e.accountId, e.providerMessageId)

/-- Modelled from the spec: a bulk target selector — soft-deleted rows are
included only when `includeDeleted` is explicitly set (§4.3, §8). -/
def bulkSelector (includeDeleted : Bool) (pred : Email → Bool) (rows : List Email) :
    List Email :=
  rows.filter (fun e => (includeDeleted || !e.isDeleted) && pred e)

/-- Browser-visible state touched by the axios response interceptor in
`frontend/src/services/api.ts`: the localStorage bindings and
`window.location.href`. -/
structure BrowserState where
  localStorage : List (String × String)
  locationHref : String
  deriving DecidableEq, Repr

/-- An axios error as the response interceptor sees it: the endpoint that
produced it and `error.response?.status` (`none` when no response). -/
structure ApiError where
  endpoint : String
  status : Option Nat
  deriving DecidableEq, Repr

/-- Embedded from `api.interceptors.response.use` in
`frontend/src/services/api.ts` (error handler): on a 401 response status
the `auth_token` localStorage entry is removed and `window.location.href`
is set to /login; in every case the original error is rejected back to the
caller unmodified. -/
def responseInterceptorOnError (st : BrowserState) (err : ApiError) :
    BrowserState × ApiError :=
  if err.status = some 401 then
    ({ localStorage := st.localStorage.filter (fun kv => kv.1 ≠ "auth_token"),
       locationHref := "/login" }, err)
  else (st, err)

/-- A concrete provider-success function that fails exactly on id 2. -/
def testProvOk : Nat → Bool := fun i => if i = 2 then false else true

/-- Three concrete rows for the bulk [A,B,C] scenario. -/
def testRowsABC : List Email :=
  [testUnprocessed 1 "a1", testUnprocessed 2 "b2", testUnprocessed 3 "c3"]

/-- A concrete row that is already soft-deleted. -/
def testDeletedEmail : Email := { testUnprocessed 1 "a1" with isDeleted := true }

/-- Rows for the precondition scenarios: one already-deleted, one live. -/
def testRows9 : List Email := [testDeletedEmail, testUnprocessed 2 "b2"]

theorem refreshEmail_providerMessageId (e : Email) (m : Msg) :
    (refreshEmail e m).providerMessageId = e.providerMessageId := rfl

theorem pids_upsertMsg_nodup (acct : Nat) (st : Store) (m : Msg)
    (h : (pids st.rows).Nodup) : (pids (upsertMsg acct st m).1.rows).Nodup := by
  unfold upsertMsg
  split
  · simp only [pids, List.map_map]
    have heq : st.rows.map
        ((fun e => e.providerMessageId) ∘
          (fun e => if e.providerMessageId = m.msgId then refreshEmail e m else e)) =
        st.rows.map (fun e => e.providerMessageId) := by
      apply List.map_congr_left
      intro e _
      by_cases hc : e.providerMessageId = m.msgId <;> simp [hc, refreshEmail]
    rw [heq]
    exact h
  · rename_i hno
    simp only [List.any_eq_true, decide_eq_true_eq, not_exists] at hno
    simp only [pids, List.map_append, List.map_cons, List.map_nil]
    rw [List.nodup_append]
    refine ⟨h, List.nodup_singleton _, ?_⟩
    intro a ha
    simp only [pids, List.mem_map] at ha
    obtain ⟨e, he, rfl⟩ := ha
    simp only [List.mem_singleton, newEmail]
    intro hcontra
    exact hno e ⟨he, hcontra⟩

theorem pids_upsertStep_nodup (acct : Nat) (p : Provider) (acc : Store × SyncResult)
    (mid : String) (h : (pids acc.1.rows).Nodup) :
    (pids (upsertStep acct p acc mid).1.rows).Nodup := by
  unfold upsertStep
  cases p.fetch mid with
  | none => exact h
  | some m => exact pids_upsertMsg_nodup acct acc.1 m h

theorem pids_foldl_upsertStep_nodup (acct : Nat) (p : Provider) :
    ∀ (ids : List String) (acc : Store × SyncResult), (pids acc.1.rows).Nodup →
      (pids (ids.foldl (upsertStep acct p) acc).1.rows).Nodup := by
  intro ids
  induction ids with
  | nil => intro acc h; exact h
  | cons mid rest ih =>
      intro acc h
      exact ih (upsertStep acct p acc mid) (pids_upsertStep_nodup acct p acc mid h)

theorem commitCursor_rows (p : Provider) (ids : List String) (st : Store) :
    (commitCursor p ids st).rows = st.rows := rfl

theorem pids_processBatch_nodup (acct : Nat) (p : Provider) (acc : Store × SyncResult)
    (ids : List String) (h : (pids acc.1.rows).Nodup) :
    (pids (processBatch acct p acc ids).1.rows).Nodup := by
  unfold processBatch
  simp only [commitCursor_rows]
  exact pids_foldl_upsertStep_nodup acct p ids acc h

theorem pids_foldl_processBatch_nodup (acct : Nat) (p : Provider) :
    ∀ (batches : List (List String)) (acc : Store × SyncResult), (pids acc.1.rows).Nodup →
      (pids (batches.foldl (processBatch acct p) acc).1.rows).Nodup := by
  intro batches
  induction batches with
  | nil => intro acc h; exact h
  | cons b rest ih =>
      intro acc h
      exact ih (processBatch acct p acc b) (pids_processBatch_nodup acct p acc b h)

theorem pids_sync_nodup (acct : Nat) (qp : Query → Provider) (c : SyncCall) (st : Store)
    (h : (pids st.rows).Nodup) : (pids (sync acct qp c st).1.rows).Nodup := by
  unfold sync
  exact pids_foldl_processBatch_nodup acct _ _ (st, SyncResult.empty) h

theorem pids_runSyncs_nodup (acct : Nat) :
    ∀ (calls : List (SyncCall × (Query → Provider))) (st : Store), (pids st.rows).Nodup →
      (pids (runSyncs acct calls st).rows).Nodup := by
  intro calls
  induction calls with
  | nil => intro st h; exact h
  | cons c rest ih =>
      intro st h
      exact ih (sync acct c.2 c.1 st).1 (pids_sync_nodup acct c.2 c.1 st h)

theorem countP_le_one_of_nodup_map {α : Type} (f : α → String) (x : String) :
    ∀ (l : List α), (l.map f).Nodup → l.countP (fun e => f e = x) ≤ 1 := by
  intro l
  induction l with
  | nil => intro _; simp
  | cons a l ih =>
      intro h
      simp only [List.map_cons, List.nodup_cons] at h
      rw [List.countP_cons]
      by_cases hc : f a = x
      · have hz : l.countP (fun e => f e = x) = 0 := by
          rw [List.countP_eq_zero]
          intro e he
          simp only [decide_eq_true_eq]
          intro hfe
          exact h.1 (by rw [hc, ← hfe]; exact List.mem_map_of_mem f he)
        simp [hz, hc]
      · simp [hc, ih h.2]

theorem countPid_pos_of_mem {rows : List Email} {e : Email} {x : String}
    (he : e ∈ rows) (hx : e.providerMessageId = x) : 1 ≤ countPid rows x := by
  unfold countPid
  rw [Nat.succ_le, List.countP_pos_iff]
  exact ⟨e, he, by simp [hx]⟩

/-- C1: for every sequence of sync calls for one account — incremental and
full interleaved, with the provider free to return repeated or overlapping
message ids across pages and batches — starting from a store with no
duplicate provider message ids (such as the empty store), after the calls
settle there is exactly one Email row with any given providerMessageId
that occurs in the store at all. -/
theorem sync_dedup_invariant (acct : Nat)
    (calls : List (SyncCall × (Query → Provider))) (st : Store)
    (h : (pids st.rows).Nodup) (x : String)
    (hx : ∃ e ∈ (runSyncs acct calls st).rows, e.providerMessageId = x) :
    countPid (runSyncs acct calls st).rows x = 1 := by
  obtain ⟨e, he, hex⟩ := hx
  have hnd := pids_runSyncs_nodup acct calls st h
  unfold pids at hnd
  have hle := countP_le_one_of_nodup_map (fun e : Email => e.providerMessageId) x _ hnd
  have hge := countPid_pos_of_mem he hex
  exact Nat.le_antisymm hle hge

/-- Witness for C1: an interleaved incremental + full sync against a
provider with overlapping pages leaves exactly one row for id m2. -/
theorem sync_dedup_invariant_witness :
    countPid (runSyncs 0 [(testIncCall, fun _ => testProvider),
      (testFullCall, fun _ => testProvider)] emptyStore).rows "m2" = 1 :=
  sync_dedup_invariant 0
    [(testIncCall, fun _ => testProvider), (testFullCall, fun _ => testProvider)]
    emptyStore (by decide) "m2" (by decide)

theorem cursor_upsertMsg (acct : Nat) (st : Store) (m : Msg) :
    (upsertMsg acct st m).1.cursor = st.cursor := by
  unfold upsertMsg
  split <;> rfl

theorem cursor_upsertStep (acct : Nat) (p : Provider) (acc : Store × SyncResult)
    (mid : String) : (upsertStep acct p acc mid).1.cursor = acc.1.cursor := by
  unfold upsertStep
  cases p.fetch mid with
  | none => rfl
  | some m => exact cursor_upsertMsg acct acc.1 m

theorem cursor_foldl_upsertStep (acct : Nat) (p : Provider) :
    ∀ (ids : List String) (acc : Store × SyncResult),
      (ids.foldl (upsertStep acct p) acc).1.cursor = acc.1.cursor := by
  intro ids
  induction ids with
  | nil => intro acc; rfl
  | cons mid rest ih =>
      intro acc
      rw [List.foldl_cons, ih (upsertStep acct p acc mid), cursor_upsertStep]

theorem cursor_processBatch (acct : Nat) (p : Provider) (acc : Store × SyncResult)
    (ids : List String) :
    (processBatch acct p acc ids).1.cursor.lastSeenProviderTimestamp =
      max acc.1.cursor.lastSeenProviderTimestamp (batchMaxTs p ids) := by
  unfold processBatch commitCursor
  simp only [cursor_foldl_upsertStep]

theorem cursor_foldl_processBatch (acct : Nat) (p : Provider) :
    ∀ (batches : List (List String)) (acc : Store × SyncResult),
      (batches.foldl (processBatch acct p) acc).1.cursor.lastSeenProviderTimestamp =
        batches.foldl (fun c b => max c (batchMaxTs p b))
          acc.1.cursor.lastSeenProviderTimestamp := by
  intro batches
  induction batches with
  | nil => intro acc; rfl
  | cons b rest ih =>
      intro acc
      rw [List.foldl_cons, List.foldl_cons, ih (processBatch acct p acc b),
        cursor_processBatch]

theorem le_foldl_max (f : List String → Nat) :
    ∀ (bs : List (List String)) (c : Nat), c ≤ bs.foldl (fun c b => max c (f b)) c := by
  intro bs
  induction bs with
  | nil => intro c; exact Nat.le_refl c
  | cons b rest ih =>
      intro c
      rw [List.foldl_cons]
      calc c ≤ max c (f b) := Nat.le_max_left _ _
        _ ≤ rest.foldl (fun c b => max c (f b)) (max c (f b)) := ih (max c (f b))

theorem cursor_sync_mono (acct : Nat) (qp : Query → Provider) (c : SyncCall) (st : Store) :
    st.cursor.lastSeenProviderTimestamp ≤
      (sync acct qp c st).1.cursor.lastSeenProviderTimestamp := by
  unfold sync
  rw [cursor_foldl_processBatch]
  exact le_foldl_max _ _ _

/-- C2: across every run of sync for an account the cursor watermark
`lastSeenProviderTimestamp` is monotonically non-decreasing — no sync call
(and no sequence of sync calls) leaves it smaller than before; the cursor
advance of a batch is applied to the state already holding that batch's
committed rows, with the new value `max old (batch timestamps)`; and the
watermark after any prefix of `k` committed batches is determined by those
`k` batches alone, so it never accounts for an uncommitted batch. -/
theorem cursor_monotonic_commit (acct : Nat) :
    (∀ (qp : Query → Provider) (c : SyncCall) (st : Store),
        st.cursor.lastSeenProviderTimestamp ≤
          (sync acct qp c st).1.cursor.lastSeenProviderTimestamp) ∧
    (∀ (calls : List (SyncCall × (Query → Provider))) (st : Store),
        st.cursor.lastSeenProviderTimestamp ≤
          (runSyncs acct calls st).cursor.lastSeenProviderTimestamp) ∧
    (∀ (p : Provider) (acc : Store × SyncResult) (b : List String),
        (processBatch acct p acc b).1.rows = (b.foldl (upsertStep acct p) acc).1.rows ∧
        (processBatch acct p acc b).1.cursor.lastSeenProviderTimestamp =
          max acc.1.cursor.lastSeenProviderTimestamp (batchMaxTs p b)) ∧
    (∀ (p : Provider) (batches : List (List String)) (k : Nat) (acc : Store × SyncResult),
        ((batches.take k).foldl (processBatch acct p) acc).1.cursor.lastSeenProviderTimestamp =
          (batches.take k).foldl (fun c b => max c (batchMaxTs p b))
            acc.1.cursor.lastSeenProviderTimestamp) := by
  refine ⟨cursor_sync_mono acct, ?_, ?_, ?_⟩
  · intro calls
    induction calls with
    | nil => intro st; exact Nat.le_refl _
    | cons c rest ih =>
        intro st
        exact Nat.le_trans (cursor_sync_mono acct c.2 c.1 st) (ih (sync acct c.2 c.1 st).1)
  · intro p acc b
    exact ⟨rfl, cursor_processBatch acct p acc b⟩
  · intro p batches k acc
    exact cursor_foldl_processBatch acct p (batches.take k) acc

theorem followTokensAux_eq_join (p : Provider) :
    ∀ (fuel tok : Nat), p.pages.length ≤ tok + fuel →
      followTokensAux p tok fuel = (p.pages.drop tok).flatten := by
  intro fuel
  induction fuel with
  | zero =>
      intro tok h
      unfold followTokensAux listMessageIds
      rw [List.drop_eq_nil_of_le (by omega)]
      simp only [List.flatten_nil]
      rw [List.getD_eq_default]
      omega
  | succ fuel ih =>
      intro tok h
      unfold followTokensAux listMessageIds
      by_cases hlt : tok + 1 < p.pages.length
      · have htok : tok < p.pages.length := by omega
        simp only [hlt, if_true]
        rw [ih (tok + 1) (by omega), List.getD_eq_getElem _ _ htok,
          List.drop_eq_getElem_cons htok, List.flatten_cons]
      · simp only [hlt, if_false]
        by_cases htok : tok < p.pages.length
        · rw [List.getD_eq_getElem _ _ htok, List.drop_eq_getElem_cons htok,
            List.drop_eq_nil_of_le (by omega)]
          simp
        · rw [List.drop_eq_nil_of_le (by omega)]
          simp only [List.flatten_nil]
          rw [List.getD_eq_default]
          omega

theorem followTokens_eq_join (p : Provider) : followTokens p 0 = p.pages.flatten := by
  unfold followTokens
  rw [followTokensAux_eq_join p (p.pages.length - 0) 0 (by omega)]
  rfl

theorem chunkAcc_join (m : Nat) :
    ∀ (xs cur : List String), (chunkAcc m cur xs).flatten = cur.reverse ++ xs := by
  intro xs
  induction xs with
  | nil =>
      intro cur
      unfold chunkAcc
      split <;> simp_all
  | cons x xs ih =>
      intro cur
      unfold chunkAcc
      split
      · rw [List.flatten_cons, ih []]
        simp
      · rw [ih (x :: cur)]
        simp

theorem chunkList_join (n : Nat) (xs : List String) : (chunkList n xs).flatten = xs := by
  unfold chunkList
  rw [chunkAcc_join]
  rfl

theorem refreshEmail_idem (e : Email) (m : Msg) :
    refreshEmail (refreshEmail e m) m = refreshEmail e m := rfl

theorem refreshEmail_newEmail (acct n : Nat) (m : Msg) :
    refreshEmail (newEmail acct n m) m = newEmail acct n m := rfl

theorem exists_pid_upsertMsg (acct : Nat) (st : Store) (m : Msg) :
    ∃ e ∈ (upsertMsg acct st m).1.rows, e.providerMessageId = m.msgId := by
  unfold upsertMsg
  split
  · rename_i hany
    simp only [List.any_eq_true, decide_eq_true_eq] at hany
    obtain ⟨e, he, hpe⟩ := hany
    refine ⟨refreshEmail e m, ?_, by rw [refreshEmail_providerMessageId, hpe]⟩
    have : (fun r => if r.providerMessageId = m.msgId then refreshEmail r m else r) e =
        refreshEmail e m := by simp [hpe]
    rw [← this]
    exact List.mem_map_of_mem _ he
  · exact ⟨newEmail acct st.nextId m, by simp, rfl⟩

theorem refresh_fixed_of_mem_upsert (acct : Nat) (st : Store) (m : Msg) :
    ∀ r ∈ (upsertMsg acct st m).1.rows, r.providerMessageId = m.msgId →
      refreshEmail r m = r := by
  unfold upsertMsg
  split
  · rename_i hany
    intro r hr hpr
    simp only [List.mem_map] at hr
    obtain ⟨e, _, rfl⟩ := hr
    by_cases hc : e.providerMessageId = m.msgId
    · rw [if_pos hc, refreshEmail_idem]
    · rw [if_neg hc] at hpr ⊢
      exact absurd hpr hc
  · rename_i hno
    simp only [List.any_eq_true, decide_eq_true_eq, not_exists] at hno
    intro r hr hpr
    rcases List.mem_append.1 hr with hmem | hmem
    · exact absurd hpr (fun hc => hno r ⟨hmem, hc⟩)
    · rw [List.mem_singleton] at hmem
      subst hmem
      exact refreshEmail_newEmail acct st.nextId m

theorem upsertMsg_idem (acct : Nat) (st : Store) (m : Msg) :
    (upsertMsg acct (upsertMsg acct st m).1 m).1 = (upsertMsg acct st m).1 := by
  have hex := exists_pid_upsertMsg acct st m
  have hfix := refresh_fixed_of_mem_upsert acct st m
  have hguard : (upsertMsg acct st m).1.rows.any
      (fun e => e.providerMessageId = m.msgId) = true := by
    rw [List.any_eq_true]
    obtain ⟨e, he, hpe⟩ := hex
    exact ⟨e, he, by simp [hpe]⟩
  conv_lhs => rw [upsertMsg]
  rw [if_pos hguard]
  have hmap : (upsertMsg acct st m).1.rows.map
      (fun e => if e.providerMessageId = m.msgId then refreshEmail e m else e) =
      (upsertMsg acct st m).1.rows := by
    have hcong : (upsertMsg acct st m).1.rows.map
        (fun e => if e.providerMessageId = m.msgId then refreshEmail e m else e) =
        (upsertMsg acct st m).1.rows.map id := by
      apply List.map_congr_left
      intro r hr
      by_cases hc : r.providerMessageId = m.msgId
      · rw [if_pos hc]
        exact hfix r hr hc
      · rw [if_neg hc]
        rfl
    rw [hcong, List.map_id]
  rw [hmap]

/-- C3: for every existing Email row matching an incoming provider
message, the upsert takes the update path (no insert), rewrites rows by
the metadata refresh alone — which updates only the mutable metadata
fields (labels, content snapshot, received timestamp) and leaves
`category`, `confidenceScore` and the other classification/state flags
exactly as they were — and re-upserting the same unchanged message is
idempotent on the store. -/
theorem upsert_metadata_refresh (acct : Nat) (st : Store) (m : Msg) (e : Email)
    (he : e ∈ st.rows) (hpid : e.providerMessageId = m.msgId) :
    (upsertMsg acct st m).2 = false ∧
    (upsertMsg acct st m).1.rows =
      st.rows.map (fun r => if r.providerMessageId = m.msgId then refreshEmail r m else r) ∧
    (refreshEmail e m).category = e.category ∧
    (refreshEmail e m).confidenceScore = e.confidenceScore ∧
    (refreshEmail e m).isProcessed = e.isProcessed ∧
    (refreshEmail e m).isSpam = e.isSpam ∧
    (refreshEmail e m).isDeleted = e.isDeleted ∧
    (refreshEmail e m).isArchived = e.isArchived ∧
    (refreshEmail e m).id = e.id ∧
    (refreshEmail e m).labels = m.labels ∧
    (refreshEmail e m).snippet = m.snippet ∧
    (refreshEmail e m).contentBody = m.contentBody ∧
    (refreshEmail e m).receivedAt = m.receivedAt ∧
    (upsertMsg acct (upsertMsg acct st m).1 m).1 = (upsertMsg acct st m).1 := by
  have hguard : st.rows.any (fun r => r.providerMessageId = m.msgId) = true := by
    rw [List.any_eq_true]
    exact ⟨e, he, by simp [hpid]⟩
  refine ⟨?_, ?_, rfl, rfl, rfl, rfl, rfl, rfl, rfl, rfl, rfl, rfl, rfl,
    upsertMsg_idem acct st m⟩
  · simp [upsertMsg, hguard]
  · simp [upsertMsg, hguard]

/-- Witness for C3: re-syncing message m1 over a classified row keeps its
category and confidence and repeating the upsert is a no-op. -/
theorem upsert_metadata_refresh_witness :
    (upsertMsg 0 testStore1 (testMsg "m1" 7)).2 = false ∧
    (refreshEmail testClassifiedEmail (testMsg "m1" 7)).category = some "spam" ∧
    (refreshEmail testClassifiedEmail (testMsg "m1" 7)).confidenceScore =
      some ((97 : ℚ) / 100) ∧
    (upsertMsg 0 (upsertMsg 0 testStore1 (testMsg "m1" 7)).1 (testMsg "m1" 7)).1 =
      (upsertMsg 0 testStore1 (testMsg "m1" 7)).1 := by
  have h := upsert_metadata_refresh 0 testStore1 (testMsg "m1" 7) testClassifiedEmail
    (List.mem_singleton_self _) rfl
  obtain ⟨h1, _, h3, h4, _, _, _, _, _, _, _, _, _, hidem⟩ := h
  exact ⟨h1, h3.trans rfl, h4.trans rfl, hidem⟩

theorem classifyRow_id (batch : List Nat) (f : Nat → Option ClassEntry) (e : Email) :
    (classifyRow batch f e).id = e.id := by
  unfold classifyRow
  split
  · cases f e.id <;> rfl
  · rfl

theorem classifyRow_idem (batch : List Nat) (f : Nat → Option ClassEntry) (e : Email) :
    classifyRow batch f (classifyRow batch f e) = classifyRow batch f e := by
  by_cases h : e.id ∈ batch
  · cases hf : f e.id with
    | some c =>
        have hid : (applyEntry e c).id = e.id := rfl
        simp only [classifyRow, h, if_true, hf, hid]
        rfl
    | none => simp only [classifyRow, h, if_true, hf]
  · simp only [classifyRow, h, if_false]

theorem classifyRow_applyEntry (batch : List Nat) (g : Nat → Option ClassEntry)
    (e1 : Email) (c : ClassEntry) (hmem : e1.id ∈ batch) (hg : g e1.id = some c) :
    classifyRow batch g e1 = applyEntry e1 c := by
  unfold classifyRow
  simp [hmem, hg]

theorem classifyRow_isProcessed_mono (batch : List Nat) (f : Nat → Option ClassEntry)
    (e : Email) (h : e.isProcessed = true) : (classifyRow batch f e).isProcessed = true := by
  unfold classifyRow
  split
  · cases f e.id with
    | some c => rfl
    | none => exact h
  · exact h

/-- C4: for every classification batch, a whole-call API failure commits
nothing — rows are unchanged, so nothing is marked processed and every
item stays eligible for retry — while a response malformed for only a
subset leaves exactly the malformed items untouched, commits the valid
entries with category/confidence written and `isProcessed` set, and
reports `processed` = all attempted items, `succeeded` = valid entries,
`failed` = malformed entries (succeeded + failed = processed). -/
theorem classification_partial_failure (rows : List Email) (batch : List Nat)
    (f : Nat → Option ClassEntry) :
    (classifyBatch rows batch none).1 = rows ∧
    (classifyBatch rows batch none).2 =
      { processed := batch.length, succeeded := 0, failed := batch.length } ∧
    (∀ (i : Nat) (e : Email), rows[i]? = some e → e.id ∈ batch → f e.id = none →
        (classifyBatch rows batch (some f)).1[i]? = some e) ∧
    (∀ (i : Nat) (e : Email) (c : ClassEntry), rows[i]? = some e → e.id ∈ batch →
        f e.id = some c →
        (classifyBatch rows batch (some f)).1[i]? = some (applyEntry e c) ∧
        (applyEntry e c).isProcessed = true ∧
        (applyEntry e c).category = some c.category ∧
        (applyEntry e c).confidenceScore = some c.confidenceScore) ∧
    (∀ (i : Nat) (e : Email), rows[i]? = some e → e.id ∉ batch →
        (classifyBatch rows batch (some f)).1[i]? = some e) ∧
    ((classifyBatch rows batch (some f)).2 =
      { processed := batch.length,
        succeeded := batch.countP (fun i => (f i).isSome),
        failed := batch.countP (fun i => (f i).isNone) }) ∧
    ((classifyBatch rows batch (some f)).2.succeeded +
        (classifyBatch rows batch (some f)).2.failed =
      (classifyBatch rows batch (some f)).2.processed) := by
  refine ⟨rfl, rfl, ?_, ?_, ?_, rfl, ?_⟩
  · intro i e hi hmem hf
    simp [classifyBatch, classifyRow, List.getElem?_map, hi, hmem, hf]
  · intro i e c hi hmem hf
    refine ⟨?_, rfl, rfl, rfl⟩
    simp [classifyBatch, classifyRow, List.getElem?_map, hi, hmem, hf]
  · intro i e hi hmem
    simp [classifyBatch, classifyRow, List.getElem?_map, hi, hmem]
  · show batch.countP (fun i => (f i).isSome) + batch.countP (fun i => (f i).isNone) =
      batch.length
    have h : batch.length = batch.countP (fun i => (f i).isSome) +
        batch.countP (fun a => ¬(f a).isSome = true) :=
      List.length_eq_countP_add_countP _ _
    have hn : batch.countP (fun a => ¬(f a).isSome = true) =
        batch.countP (fun i => (f i).isNone) := by
      apply List.countP_congr
      intro i _
      cases f i <;> simp
    omega

/-- Witness for C4: classifying unprocessed e1, e2 where the response has
a valid entry for e1 and a malformed one for e2 commits only e1 and
reports processed 2, succeeded 1, failed 1. -/
theorem classification_partial_failure_witness :
    (classifyBatch [testUnprocessed 1 "m1", testUnprocessed 2 "m2"] [1, 2]
        (some testRespF)).1[0]? =
      some (applyEntry (testUnprocessed 1 "m1") testEntry1) ∧
    (applyEntry (testUnprocessed 1 "m1") testEntry1).isProcessed = true ∧
    (applyEntry (testUnprocessed 1 "m1") testEntry1).category = some "spam" ∧
    (classifyBatch [testUnprocessed 1 "m1", testUnprocessed 2 "m2"] [1, 2]
        (some testRespF)).1[1]? = some (testUnprocessed 2 "m2") ∧
    (testUnprocessed 2 "m2").isProcessed = false ∧
    (classifyBatch [testUnprocessed 1 "m1", testUnprocessed 2 "m2"] [1, 2]
        (some testRespF)).2 = { processed := 2, succeeded := 1, failed := 1 } := by
  have h := classification_partial_failure
    [testUnprocessed 1 "m1", testUnprocessed 2 "m2"] [1, 2] testRespF
  obtain ⟨-, -, hmal, hval, -, hres, -⟩ := h
  have h1 := hval 0 (testUnprocessed 1 "m1") testEntry1 rfl (by decide) rfl
  have h2 := hmal 1 (testUnprocessed 2 "m2") rfl (by decide) rfl
  exact ⟨h1.1, h1.2.1, (h1.2.2.1).trans rfl, h2, rfl, hres.trans (by decide)⟩

/-- C8: with the same response, classifying an already-classified row set
again commits literally the same rows (same category and confidence both
times); no classification call ever flips `isProcessed` from true back to
false; and a later re-classification overwrites category and confidence
in place from the latest response — last write wins, no history kept. -/
theorem classify_idempotent_lastwrite (rows : List Email) (batch : List Nat)
    (f g : Nat → Option ClassEntry) :
    ((classifyBatch (classifyBatch rows batch (some f)).1 batch (some f)).1 =
      (classifyBatch rows batch (some f)).1) ∧
    (∀ (resp : Option (Nat → Option ClassEntry)) (i : Nat) (e : Email),
        rows[i]? = some e → e.isProcessed = true →
        ∃ e', (classifyBatch rows batch resp).1[i]? = some e' ∧
          e'.isProcessed = true ∧ e'.id = e.id) ∧
    (∀ (i : Nat) (e : Email) (c : ClassEntry), rows[i]? = some e → e.id ∈ batch →
        g e.id = some c →
        ∃ e', (classifyBatch (classifyBatch rows batch (some f)).1 batch (some g)).1[i]? =
            some e' ∧ e'.category = some c.category ∧
          e'.confidenceScore = some c.confidenceScore ∧ e'.isProcessed = true) := by
  refine ⟨?_, ?_, ?_⟩
  · simp only [classifyBatch, List.map_map]
    apply List.map_congr_left
    intro e _
    exact classifyRow_idem batch f e
  · intro resp i e hi hp
    cases resp with
    | none => exact ⟨e, hi, hp, rfl⟩
    | some f' =>
        refine ⟨classifyRow batch f' e, ?_, classifyRow_isProcessed_mono batch f' e hp,
          classifyRow_id batch f' e⟩
        simp [classifyBatch, List.getElem?_map, hi]
  · intro i e c hi hmem hg
    have hid : (classifyRow batch f e).id = e.id := classifyRow_id batch f e
    have hstep : classifyRow batch g (classifyRow batch f e) =
        applyEntry (classifyRow batch f e) c :=
      classifyRow_applyEntry batch g (classifyRow batch f e) c
        (by rw [hid]; exact hmem) (by rw [hid]; exact hg)
    refine ⟨applyEntry (classifyRow batch f e) c, ?_, rfl, rfl, rfl⟩
    have hget : (classifyBatch (classifyBatch rows batch (some f)).1 batch (some g)).1[i]? =
        some (classifyRow batch g (classifyRow batch f e)) := by
      simp [classifyBatch, List.getElem?_map, hi]
    rw [hget, hstep]

/-- Witness for C8: one classified row, re-classified with the same and
then with a different response. -/
theorem classify_idempotent_lastwrite_witness :
    ((classifyBatch (classifyBatch [testUnprocessed 1 "m1"] [1] (some testRespF)).1 [1]
        (some testRespF)).1 = (classifyBatch [testUnprocessed 1 "m1"] [1]
        (some testRespF)).1) ∧
    (∃ e', (classifyBatch (classifyBatch [testUnprocessed 1 "m1"] [1] (some testRespF)).1
        [1] (some testRespG)).1[0]? = some e' ∧ e'.category = some "work" ∧
      e'.isProcessed = true) := by
  have h := classify_idempotent_lastwrite [testUnprocessed 1 "m1"] [1] testRespF testRespG
  obtain ⟨hidem, -, hlast⟩ := h
  obtain ⟨e', he1, he2, -, he4⟩ := hlast 0 (testUnprocessed 1 "m1") testEntry2 rfl
    (by decide) rfl
  exact ⟨hidem, e', he1, he2.trans rfl, he4⟩

theorem marksCovered_append (xs ys : List BulkEv) :
    ∀ called, marksCovered called (xs ++ ys) =
      (marksCovered called xs && marksCovered (calledAfter called xs) ys) := by
  induction xs with
  | nil => intro called; simp [marksCovered, calledAfter]
  | cons ev rest ih =>
      intro called
      cases ev with
      | providerCall i ok =>
          cases ok
          · simp only [List.cons_append, marksCovered, calledAfter]
            exact ih called
          · simp only [List.cons_append, marksCovered, calledAfter]
            exact ih (i :: called)
      | localMark i =>
          simp only [List.cons_append, marksCovered, calledAfter, List.append_eq]
          rw [ih called, Bool.and_assoc]

theorem execOne_evs (acct : Nat) (provOk : Nat → Bool) (op : OpType)
    (acc : List Email × BulkResult × List BulkEv) (tid : Nat) :
    ∃ chunk, (execOne acct provOk op acc tid).2.2 = acc.2.2 ++ chunk ∧
      ∀ called, marksCovered called chunk = true := by
  unfold execOne
  cases acc.1.find? (fun e => e.id = tid && e.accountId = acct) with
  | none => exact ⟨[], by simp, fun called => rfl⟩
  | some e =>
      by_cases ht : isTerminal op e
      · refine ⟨[], by simp [ht], fun called => rfl⟩
      · by_cases hp : provOk tid
        · refine ⟨[BulkEv.providerCall tid true, BulkEv.localMark tid],
            by simp [ht, hp], ?_⟩
          intro called
          simp [marksCovered]
        · exact ⟨[BulkEv.providerCall tid false], by simp [ht, hp], fun called => rfl⟩

theorem execOne_evs_mono (acct : Nat) (provOk : Nat → Bool) (op : OpType)
    (acc : List Email × BulkResult × List BulkEv) (tid : Nat) (x : BulkEv)
    (hx : x ∈ acc.2.2) : x ∈ (execOne acct provOk op acc tid).2.2 := by
  obtain ⟨chunk, hc, -⟩ := execOne_evs acct provOk op acc tid
  rw [hc]
  exact List.mem_append_left _ hx

theorem marksCovered_foldl (acct : Nat) (provOk : Nat → Bool) (op : OpType) :
    ∀ (tids : List Nat) (acc : List Email × BulkResult × List BulkEv) (called : List Nat),
      marksCovered called acc.2.2 = true →
      marksCovered called ((tids.foldl (execOne acct provOk op) acc)).2.2 = true := by
  intro tids
  induction tids with
  | nil => intro acc called h; exact h
  | cons t rest ih =>
      intro acc called h
      rw [List.foldl_cons]
      apply ih
      obtain ⟨chunk, hc, hcov⟩ := execOne_evs acct provOk op acc t
      rw [hc, marksCovered_append acc.2.2 chunk called, h, hcov (calledAfter called acc.2.2)]
      rfl

theorem execOne_rows (acct : Nat) (provOk : Nat → Bool) (op : OpType)
    (acc : List Email × BulkResult × List BulkEv) (tid : Nat) :
    (execOne acct provOk op acc tid).1 = acc.1 ∨
    ((execOne acct provOk op acc tid).1 =
        acc.1.map (fun r => if r.id = tid && r.accountId = acct then applyOp op r else r) ∧
      provOk tid = true ∧
      BulkEv.providerCall tid true ∈ (execOne acct provOk op acc tid).2.2) := by
  unfold execOne
  cases acc.1.find? (fun e => e.id = tid && e.accountId = acct) with
  | none => exact Or.inl rfl
  | some e =>
      by_cases ht : isTerminal op e
      · left
        simp [ht]
      · by_cases hp : provOk tid
        · right
          refine ⟨by simp [ht, hp], hp, ?_⟩
          simp [ht, hp]
        · left
          simp [ht, hp]

theorem applyOp_rowKey (op : OpType) (e : Email) : rowKey (applyOp op e) = rowKey e := by
  cases op <;> rfl

theorem execOne_rowKey (acct : Nat) (provOk : Nat → Bool) (op : OpType)
    (acc : List Email × BulkResult × List BulkEv) (tid : Nat) (i : Nat) :
    ((execOne acct provOk op acc tid).1[i]?).map rowKey = (acc.1[i]?).map rowKey := by
  rcases execOne_rows acct provOk op acc tid with h | ⟨h, -, -⟩
  · rw [h]
  · rw [h, List.getElem?_map]
    cases acc.1[i]? with
    | none => rfl
    | some e =>
        show some (rowKey (if e.id = tid && e.accountId = acct then applyOp op e else e)) =
          some (rowKey e)
        by_cases hc : (e.id = tid && e.accountId = acct) = true
        · rw [if_pos hc, applyOp_rowKey]
        · rw [if_neg hc]

theorem execute_rowKey_foldl (acct : Nat) (provOk : Nat → Bool) (op : OpType) :
    ∀ (tids : List Nat) (acc : List Email × BulkResult × List BulkEv) (i : Nat),
      (((tids.foldl (execOne acct provOk op) acc)).1[i]?).map rowKey =
        (acc.1[i]?).map rowKey := by
  intro tids
  induction tids with
  | nil => intro acc i; rfl
  | cons t rest ih =>
      intro acc i
      rw [List.foldl_cons, ih (execOne acct provOk op acc t) i, execOne_rowKey]

theorem execOne_length (acct : Nat) (provOk : Nat → Bool) (op : OpType)
    (acc : List Email × BulkResult × List BulkEv) (tid : Nat) :
    (execOne acct provOk op acc tid).1.length = acc.1.length := by
  rcases execOne_rows acct provOk op acc tid with h | ⟨h, -, -⟩
  · rw [h]
  · rw [h, List.length_map]

theorem execute_length_foldl (acct : Nat) (provOk : Nat → Bool) (op : OpType) :
    ∀ (tids : List Nat) (acc : List Email × BulkResult × List BulkEv),
      ((tids.foldl (execOne acct provOk op) acc)).1.length = acc.1.length := by
  intro tids
  induction tids with
  | nil => intro acc; rfl
  | cons t rest ih =>
      intro acc
      rw [List.foldl_cons, ih (execOne acct provOk op acc t), execOne_length]

theorem execOne_outcome_count (acct : Nat) (provOk : Nat → Bool) (op : OpType)
    (acc : List Email × BulkResult × List BulkEv) (tid : Nat) :
    (execOne acct provOk op acc tid).2.1.succeeded.length +
      (execOne acct provOk op acc tid).2.1.failed.length =
    acc.2.1.succeeded.length + acc.2.1.failed.length + 1 := by
  unfold execOne
  cases acc.1.find? (fun e => e.id = tid && e.accountId = acct) with
  | none =>
      simp only [List.length_append, List.length_cons, List.length_nil]
      omega
  | some e =>
      by_cases ht : isTerminal op e
      · simp only [ht, if_true, List.length_append, List.length_cons, List.length_nil]
        omega
      · by_cases hp : provOk tid <;>
          simp only [ht, hp, if_true, if_false, Bool.false_eq_true,
            List.length_append, List.length_cons, List.length_nil] <;>
          omega

theorem execute_outcome_count_foldl (acct : Nat) (provOk : Nat → Bool) (op : OpType) :
    ∀ (tids : List Nat) (acc : List Email × BulkResult × List BulkEv),
      ((tids.foldl (execOne acct provOk op) acc)).2.1.succeeded.length +
        ((tids.foldl (execOne acct provOk op) acc)).2.1.failed.length =
      acc.2.1.succeeded.length + acc.2.1.failed.length + tids.length := by
  intro tids
  induction tids with
  | nil => intro acc; simp
  | cons t rest ih =>
      intro acc
      rw [List.foldl_cons, ih (execOne acct provOk op acc t)]
      have := execOne_outcome_count acct provOk op acc t
      simp only [List.length_cons]
      omega

theorem execute_changed_call_aux (acct : Nat) (provOk : Nat → Bool) (op : OpType)
    (rows0 : List Email) :
    ∀ (tids : List Nat) (acc : List Email × BulkResult × List BulkEv),
      (∀ i : Nat, ((acc.1[i]?).map rowKey) = ((rows0[i]?).map rowKey)) →
      (∀ (i : Nat) (e e' : Email), rows0[i]? = some e → acc.1[i]? = some e' → e' ≠ e →
          BulkEv.providerCall e.id true ∈ acc.2.2 ∧ provOk e.id = true) →
      ∀ (i : Nat) (e e' : Email), rows0[i]? = some e →
        (tids.foldl (execOne acct provOk op) acc).1[i]? = some e' → e' ≠ e →
          BulkEv.providerCall e.id true ∈ (tids.foldl (execOne acct provOk op) acc).2.2 ∧
          provOk e.id = true := by
  intro tids
  induction tids with
  | nil => intro acc hkey hch i e e' he he' hne; exact hch i e e' he he' hne
  | cons t rest ih =>
      intro acc hkey hch
      rw [List.foldl_cons]
      apply ih (execOne acct provOk op acc t)
      · intro i
        rw [execOne_rowKey]
        exact hkey i
      · intro i e e'' he hres hne
        rcases execOne_rows acct provOk op acc t with hrows | ⟨hrows, hp, hin⟩
        · rw [hrows] at hres
          obtain ⟨hmem, hpr⟩ := hch i e e'' he hres hne
          exact ⟨execOne_evs_mono acct provOk op acc t _ hmem, hpr⟩
        · rw [hrows, List.getElem?_map] at hres
          cases hacc : acc.1[i]? with
          | none => rw [hacc] at hres; cases hres
          | some em =>
              rw [hacc] at hres
              have heq : (if em.id = t && em.accountId = acct then applyOp op em else em) =
                  e'' := by
                exact Option.some.inj hres
              by_cases hc : (em.id = t && em.accountId = acct) = true
              · have hkey_i := hkey i
                rw [hacc, he] at hkey_i
                have hk : rowKey em = rowKey e := by
                  simpa using hkey_i
                have hid : em.id = e.id := congrArg Prod.fst hk
                have htid : em.id = t := by
                  simp only [Bool.and_eq_true, decide_eq_true_eq] at hc
                  exact hc.1
                have het : e.id = t := by rw [← hid, htid]
                rw [het]
                exact ⟨hin, hp⟩
              · rw [if_neg hc] at heq
                subst heq
                by_cases hem : em = e
                · exact absurd hem hne
                · obtain ⟨hmem, hpr⟩ := hch i e em he hacc hem
                  exact ⟨execOne_evs_mono acct provOk op acc t _ hmem, hpr⟩

/-- C5: for every bulk execution the event trace is provider-first —
scanning it left to right, every local row mark is preceded by a
successful provider call for that id, so local state never gets ahead of
the provider — any row that changed at all corresponds to a successful
provider call for its id (a per-id provider failure leaves that row
unchanged without aborting the rest), and every target id receives
exactly one per-id outcome, succeeded or failed. -/
theorem bulk_partial_failure_containment (acct : Nat) (provOk : Nat → Bool)
    (op : OpType) (rows : List Email) (tids : List Nat) :
    (marksCovered [] (execute acct provOk op rows tids).2.2 = true) ∧
    (∀ (i : Nat) (e e' : Email), rows[i]? = some e →
        (execute acct provOk op rows tids).1[i]? = some e' → e' ≠ e →
        BulkEv.providerCall e.id true ∈ (execute acct provOk op rows tids).2.2 ∧
        provOk e.id = true) ∧
    ((execute acct provOk op rows tids).2.1.succeeded.length +
        (execute acct provOk op rows tids).2.1.failed.length = tids.length) := by
  refine ⟨?_, ?_, ?_⟩
  · exact marksCovered_foldl acct provOk op tids _ [] rfl
  · intro i e e' he he' hne
    refine execute_changed_call_aux acct provOk op rows tids _ ?_ ?_ i e e' he he' hne
    · intro j; rfl
    · intro j a a' ha ha' hnea
      rw [ha] at ha'
      exact absurd (Option.some.inj ha').symm hnea
  · have := execute_outcome_count_foldl acct provOk op tids
      (rows, { succeeded := [], failed := [] }, [])
    simpa [execute] using this

/-- Witness for C5: bulk delete over targets [1,2,3] with the provider
forced to fail on 2 gives succeeded [1,3], failed [(2, provider error)],
rows 1 and 3 marked and row 2 unchanged, with a provider-first trace. -/
theorem bulk_partial_failure_containment_witness :
    marksCovered [] (execute 0 testProvOk OpType.delete testRowsABC [1, 2, 3]).2.2 = true ∧
    (BulkEv.providerCall 1 true ∈
        (execute 0 testProvOk OpType.delete testRowsABC [1, 2, 3]).2.2 ∧
      testProvOk 1 = true) ∧
    (execute 0 testProvOk OpType.delete testRowsABC [1, 2, 3]).2.1.succeeded = [1, 3] ∧
    (execute 0 testProvOk OpType.delete testRowsABC [1, 2, 3]).2.1.failed =
      [(2, "provider_error")] ∧
    ((execute 0 testProvOk OpType.delete testRowsABC [1, 2, 3]).1.map
        (fun e => e.isDeleted)) = [true, false, true] ∧
    (execute 0 testProvOk OpType.delete testRowsABC [1, 2, 3]).1[1]? =
      some (testUnprocessed 2 "b2") := by
  have h := bulk_partial_failure_containment 0 testProvOk OpType.delete testRowsABC [1, 2, 3]
  exact ⟨h.1,
    h.2.1 0 (testUnprocessed 1 "a1") (applyOp OpType.delete (testUnprocessed 1 "a1"))
      (by decide) (by decide) (by decide),
    by decide, by decide, by decide, by decide⟩

/-- C9: a bulk target already in the requested terminal state is an
idempotent no-op success — recorded as succeeded with rows and trace
untouched, no provider call — while a missing target (or one of another
account) is recorded as a per-id precondition failure, again leaving rows
and trace untouched; in both cases the executor simply continues folding
over the remaining ids, and every target of the batch still receives
exactly one outcome. -/
theorem bulk_preconditions_idempotent (acct : Nat) (provOk : Nat → Bool) (op : OpType)
    (acc : List Email × BulkResult × List BulkEv) (tid : Nat) (rows : List Email)
    (rest : List Nat) :
    (∀ e : Email, acc.1.find? (fun r => r.id = tid && r.accountId = acct) = some e →
        isTerminal op e = true →
        execOne acct provOk op acc tid =
          (acc.1, { acc.2.1 with succeeded := acc.2.1.succeeded ++ [tid] }, acc.2.2)) ∧
    (acc.1.find? (fun r => r.id = tid && r.accountId = acct) = none →
        execOne acct provOk op acc tid =
          (acc.1,
           { acc.2.1 with failed := acc.2.1.failed ++ [(tid, "precondition_failed")] },
           acc.2.2)) ∧
    (execute acct provOk op rows (tid :: rest) =
        rest.foldl (execOne acct provOk op)
          (execOne acct provOk op (rows, { succeeded := [], failed := [] }, []) tid)) ∧
    ((execute acct provOk op rows (tid :: rest)).2.1.succeeded.length +
        (execute acct provOk op rows (tid :: rest)).2.1.failed.length =
      rest.length + 1) := by
  refine ⟨?_, ?_, rfl, ?_⟩
  · intro e hf ht
    unfold execOne
    rw [hf]
    simp [ht]
  · intro hf
    unfold execOne
    rw [hf]
  · have h := execute_outcome_count_foldl acct provOk op (tid :: rest)
      (rows, { succeeded := [], failed := [] }, [])
    simp only [execute, List.length_cons, List.length_nil] at h ⊢
    omega

/-- Witness for C9: deleting the already-deleted row 1 is a recorded
success with no state change; target 99 does not exist and is recorded as
a precondition failure; both leave the remaining batch to run. -/
theorem bulk_preconditions_idempotent_witness :
    (execOne 0 testProvOk OpType.delete
        (testRows9, { succeeded := [], failed := [] }, []) 1 =
      (testRows9, { succeeded := [1], failed := [] }, [])) ∧
    (execOne 0 testProvOk OpType.delete
        (testRows9, { succeeded := [], failed := [] }, []) 99 =
      (testRows9, { succeeded := [], failed := [(99, "precondition_failed")] }, [])) ∧
    ((execute 0 testProvOk OpType.delete testRows9 [99, 2]).2.1.succeeded.length +
        (execute 0 testProvOk OpType.delete testRows9 [99, 2]).2.1.failed.length = 2) := by
  have h1 := bulk_preconditions_idempotent 0 testProvOk OpType.delete
    (testRows9, { succeeded := [], failed := [] }, []) 1 testRows9 [2]
  have h2 := bulk_preconditions_idempotent 0 testProvOk OpType.delete
    (testRows9, { succeeded := [], failed := [] }, []) 99 testRows9 [2]
  refine ⟨?_, ?_, ?_⟩
  · exact (h1.1 testDeletedEmail (by decide) (by decide)).trans (by decide)
  · exact (h2.2.1 (by decide)).trans (by decide)
  · exact h2.2.2.2

theorem classifyRow_rowKey (batch : List Nat) (f : Nat → Option ClassEntry) (e : Email) :
    rowKey (classifyRow batch f e) = rowKey e := by
  unfold classifyRow
  split
  · cases f e.id <;> rfl
  · rfl

theorem classifyBatch_rowKey (rows : List Email) (batch : List Nat)
    (resp : Option (Nat → Option ClassEntry)) (i : Nat) :
    ((classifyBatch rows batch resp).1[i]?).map rowKey = (rows[i]?).map rowKey := by
  cases resp with
  | none => rfl
  | some f =>
      show (((rows.map (classifyRow batch f)))[i]?).map rowKey = (rows[i]?).map rowKey
      rw [List.getElem?_map]
      cases rows[i]? with
      | none => rfl
      | some e =>
          show some (rowKey (classifyRow batch f e)) = some (rowKey e)
          rw [classifyRow_rowKey]

theorem upsertMsg_preserves (acct : Nat) (st : Store) (m : Msg) (e : Email)
    (he : e ∈ st.rows) :
    ∃ e' ∈ (upsertMsg acct st m).1.rows, rowKey e' = rowKey e := by
  unfold upsertMsg
  split
  · refine ⟨(fun r => if r.providerMessageId = m.msgId then refreshEmail r m else r) e,
      List.mem_map_of_mem _ he, ?_⟩
    show rowKey (if e.providerMessageId = m.msgId then refreshEmail e m else e) = rowKey e
    by_cases hc : e.providerMessageId = m.msgId
    · rw [if_pos hc]
      show (e.id, e.accountId, e.providerMessageId) = rowKey e
      rfl
    · rw [if_neg hc]
  · exact ⟨e, List.mem_append_left _ he, rfl⟩

theorem upsertStep_preserves (acct : Nat) (p : Provider) (acc : Store × SyncResult)
    (mid : String) (e : Email) (he : e ∈ acc.1.rows) :
    ∃ e' ∈ (upsertStep acct p acc mid).1.rows, rowKey e' = rowKey e := by
  unfold upsertStep
  cases p.fetch mid with
  | none => exact ⟨e, he, rfl⟩
  | some m => exact upsertMsg_preserves acct acc.1 m e he

theorem foldl_upsertStep_preserves (acct : Nat) (p : Provider) :
    ∀ (ids : List String) (acc : Store × SyncResult) (e : Email), e ∈ acc.1.rows →
      ∃ e' ∈ ((ids.foldl (upsertStep acct p) acc)).1.rows, rowKey e' = rowKey e := by
  intro ids
  induction ids with
  | nil => exact fun acc e he => ⟨e, he, rfl⟩
  | cons mid restIds ih =>
      intro acc e he
      obtain ⟨e1, he1, hk1⟩ := upsertStep_preserves acct p acc mid e he
      obtain ⟨e2, he2, hk2⟩ := ih (upsertStep acct p acc mid) e1 he1
      exact ⟨e2, he2, hk2.trans hk1⟩

theorem processBatch_preserves (acct : Nat) (p : Provider) (acc : Store × SyncResult)
    (ids : List String) (e : Email) (he : e ∈ acc.1.rows) :
    ∃ e' ∈ (processBatch acct p acc ids).1.rows, rowKey e' = rowKey e := by
  unfold processBatch
  simp only [commitCursor_rows]
  exact foldl_upsertStep_preserves acct p ids acc e he

theorem foldl_processBatch_preserves (acct : Nat) (p : Provider) :
    ∀ (batches : List (List String)) (acc : Store × SyncResult) (e : Email),
      e ∈ acc.1.rows →
      ∃ e' ∈ ((batches.foldl (processBatch acct p) acc)).1.rows, rowKey e' = rowKey e := by
  intro batches
  induction batches with
  | nil => exact fun acc e he => ⟨e, he, rfl⟩
  | cons b rest ih =>
      intro acc e he
      obtain ⟨e1, he1, hk1⟩ := processBatch_preserves acct p acc b e he
      obtain ⟨e2, he2, hk2⟩ := ih (processBatch acct p acc b) e1 he1
      exact ⟨e2, he2, hk2.trans hk1⟩

theorem sync_preserves_rows (acct : Nat) (qp : Query → Provider) (c : SyncCall)
    (st : Store) (e : Email) (he : e ∈ st.rows) :
    ∃ e' ∈ (sync acct qp c st).1.rows, rowKey e' = rowKey e := by
  unfold sync
  exact foldl_processBatch_preserves acct _ _ (st, SyncResult.empty) e he

theorem resultTotal_upsertStep (acct : Nat) (p : Provider) (acc : Store × SyncResult)
    (mid : String) :
    resultTotal (upsertStep acct p acc mid).2 = resultTotal acc.2 + 1 := by
  unfold upsertStep
  cases p.fetch mid with
  | none =>
      dsimp only
      simp only [resultTotal]
      omega
  | some m =>
      dsimp only
      cases hr : (upsertMsg acct acc.1 m).2 <;> simp only [resultTotal, hr] <;>
        simp <;> omega

theorem resultTotal_foldl_upsertStep (acct : Nat) (p : Provider) :
    ∀ (ids : List String) (acc : Store × SyncResult),
      resultTotal ((ids.foldl (upsertStep acct p) acc)).2 =
        resultTotal acc.2 + ids.length := by
  intro ids
  induction ids with
  | nil => intro acc; rfl
  | cons mid rest ih =>
      intro acc
      rw [List.foldl_cons, ih (upsertStep acct p acc mid), resultTotal_upsertStep,
        List.length_cons]
      omega

theorem resultTotal_processBatch (acct : Nat) (p : Provider) (acc : Store × SyncResult)
    (ids : List String) :
    resultTotal (processBatch acct p acc ids).2 = resultTotal acc.2 + ids.length := by
  have h := resultTotal_foldl_upsertStep acct p ids acc
  unfold processBatch
  exact h

theorem resultTotal_foldl_processBatch (acct : Nat) (p : Provider) :
    ∀ (bs : List (List String)) (acc : Store × SyncResult),
      resultTotal ((bs.foldl (processBatch acct p) acc)).2 =
        resultTotal acc.2 + bs.flatten.length := by
  intro bs
  induction bs with
  | nil => intro acc; simp
  | cons b rest ih =>
      intro acc
      rw [List.foldl_cons, ih (processBatch acct p acc b), resultTotal_processBatch,
        List.flatten_cons, List.length_append]
      omega

theorem hasPid_foldl_upsertStep (acct : Nat) (p : Provider) (ids : List String)
    (acc : Store × SyncResult) (pid : String)
    (h : ∃ e ∈ acc.1.rows, e.providerMessageId = pid) :
    ∃ e ∈ ((ids.foldl (upsertStep acct p) acc)).1.rows, e.providerMessageId = pid := by
  obtain ⟨e, he, hp⟩ := h
  obtain ⟨e', he', hk⟩ := foldl_upsertStep_preserves acct p ids acc e he
  refine ⟨e', he', ?_⟩
  have := congrArg (fun t : Nat × Nat × String => t.2.2) hk
  simpa [rowKey, hp] using this

theorem hasPid_foldl_processBatch (acct : Nat) (p : Provider) (bs : List (List String))
    (acc : Store × SyncResult) (pid : String)
    (h : ∃ e ∈ acc.1.rows, e.providerMessageId = pid) :
    ∃ e ∈ ((bs.foldl (processBatch acct p) acc)).1.rows, e.providerMessageId = pid := by
  obtain ⟨e, he, hp⟩ := h
  obtain ⟨e', he', hk⟩ := foldl_processBatch_preserves acct p bs acc e he
  refine ⟨e', he', ?_⟩
  have := congrArg (fun t : Nat × Nat × String => t.2.2) hk
  simpa [rowKey, hp] using this

theorem foldl_upsertStep_fetched (acct : Nat) (p : Provider) :
    ∀ (ids : List String) (acc : Store × SyncResult) (mid : String) (m : Msg),
      mid ∈ ids → p.fetch mid = some m →
      ∃ e ∈ ((ids.foldl (upsertStep acct p) acc)).1.rows,
        e.providerMessageId = m.msgId := by
  intro ids
  induction ids with
  | nil => intro acc mid m hmem; cases hmem
  | cons x rest ih =>
      intro acc mid m hmem hf
      rcases List.mem_cons.1 hmem with heq | hmem'
      · subst heq
        rw [List.foldl_cons]
        apply hasPid_foldl_upsertStep
        show ∃ e ∈ (upsertStep acct p acc mid).1.rows, e.providerMessageId = m.msgId
        unfold upsertStep
        rw [hf]
        exact exists_pid_upsertMsg acct acc.1 m
      · rw [List.foldl_cons]
        exact ih (upsertStep acct p acc x) mid m hmem' hf

theorem foldl_processBatch_fetched (acct : Nat) (p : Provider) :
    ∀ (bs : List (List String)) (acc : Store × SyncResult) (mid : String) (m : Msg),
      (∃ b ∈ bs, mid ∈ b) → p.fetch mid = some m →
      ∃ e ∈ ((bs.foldl (processBatch acct p) acc)).1.rows,
        e.providerMessageId = m.msgId := by
  intro bs
  induction bs with
  | nil => intro acc mid m hmem; obtain ⟨b, hb, -⟩ := hmem; cases hb
  | cons b rest ih =>
      intro acc mid m hmem hf
      obtain ⟨b', hb', hmid⟩ := hmem
      rcases List.mem_cons.1 hb' with heq | hb''
      · subst heq
        rw [List.foldl_cons]
        apply hasPid_foldl_processBatch
        show ∃ e ∈ (processBatch acct p acc b').1.rows, e.providerMessageId = m.msgId
        unfold processBatch
        simp only [commitCursor_rows]
        exact foldl_upsertStep_fetched acct p b' acc mid m hmid hf
      · rw [List.foldl_cons]
        exact ih (processBatch acct p acc b) mid m ⟨b', hb'', hmid⟩ hf

/-- C7: for every sync call the engine retrieves the provider's full
token-paginated listing with no hard cap: when the caller passes no
`maxResults`, the sync result's counters account for every id on every
provider page (newCount + updatedCount + errorCount equals the length of
the whole listing) and every listed message that fetches successfully has
a row afterwards; when the caller explicitly passes `maxResults = n`,
exactly `min n total` ids are processed; `sync` consults the provider
only at the query built by `buildQuery`, which in incremental mode is
restricted to `targetLabels` exactly when they are given (`none` = all
labels/folders) and is bounded below by the cursor watermark. -/
theorem sync_pagination_unbounded (acct : Nat) (qp : Query → Provider) (c : SyncCall)
    (st : Store) :
    (c.maxResults = none →
        (sync acct qp c st).2.newCount + (sync acct qp c st).2.updatedCount +
          (sync acct qp c st).2.errorCount =
        (qp (buildQuery c.mode st.cursor c.targetLabels)).pages.flatten.length) ∧
    (∀ n : Nat, c.maxResults = some n →
        (sync acct qp c st).2.newCount + (sync acct qp c st).2.updatedCount +
          (sync acct qp c st).2.errorCount =
        min n (qp (buildQuery c.mode st.cursor c.targetLabels)).pages.flatten.length) ∧
    (c.maxResults = none →
        ∀ mid ∈ (qp (buildQuery c.mode st.cursor c.targetLabels)).pages.flatten,
        ∀ m : Msg, (qp (buildQuery c.mode st.cursor c.targetLabels)).fetch mid = some m →
          ∃ e ∈ (sync acct qp c st).1.rows, e.providerMessageId = m.msgId) ∧
    (∀ qp' : Query → Provider,
        qp' (buildQuery c.mode st.cursor c.targetLabels) =
          qp (buildQuery c.mode st.cursor c.targetLabels) →
        sync acct qp' c st = sync acct qp c st) ∧
    ((buildQuery SyncMode.incremental st.cursor c.targetLabels).labels =
        c.targetLabels ∧
      (buildQuery SyncMode.incremental st.cursor c.targetLabels).afterTs =
        some st.cursor.lastSeenProviderTimestamp) := by
  refine ⟨?_, ?_, ?_, ?_, rfl, rfl⟩
  · intro hm
    show resultTotal (sync acct qp c st).2 = _
    unfold sync
    rw [hm]
    rw [resultTotal_foldl_processBatch, chunkList_join, followTokens_eq_join]
    dsimp only
    simp [resultTotal, SyncResult.empty]
  · intro n hm
    show resultTotal (sync acct qp c st).2 = _
    unfold sync
    rw [hm]
    rw [resultTotal_foldl_processBatch, chunkList_join, List.length_take,
      followTokens_eq_join]
    dsimp only
    simp [resultTotal, SyncResult.empty]
  · intro hm mid hmid m hf
    unfold sync
    rw [hm]
    apply foldl_processBatch_fetched acct _ _ (st, SyncResult.empty) mid m ?_ hf
    rw [← List.mem_flatten]
    rw [chunkList_join, followTokens_eq_join]
    exact hmid
  · intro qp' hq
    unfold sync
    dsimp only
    rw [hq]

/-- Witness for C7: an uncapped incremental sync against the two-page
provider processes all four listed ids and stores the fetchable message
m3, while passing maxResults 1 processes exactly one id. -/
theorem sync_pagination_unbounded_witness :
    ((sync 0 (fun _ => testProvider) testIncCall emptyStore).2.newCount +
      (sync 0 (fun _ => testProvider) testIncCall emptyStore).2.updatedCount +
      (sync 0 (fun _ => testProvider) testIncCall emptyStore).2.errorCount = 4) ∧
    (∃ e ∈ (sync 0 (fun _ => testProvider) testIncCall emptyStore).1.rows,
        e.providerMessageId = "m3") ∧
    ((sync 0 (fun _ => testProvider) testCappedCall emptyStore).2.newCount +
      (sync 0 (fun _ => testProvider) testCappedCall emptyStore).2.updatedCount +
      (sync 0 (fun _ => testProvider) testCappedCall emptyStore).2.errorCount = 1) := by
  have h1 := sync_pagination_unbounded 0 (fun _ => testProvider) testIncCall emptyStore
  have h2 := sync_pagination_unbounded 0 (fun _ => testProvider) testCappedCall emptyStore
  refine ⟨(h1.1 rfl).trans (by decide), ?_, (h2.2.1 1 rfl).trans (by decide)⟩
  exact h1.2.2.1 rfl "m3" (by decide) (testMsg "m3" 9) (by decide)

/-- C6: no core operation physically removes a local Email row — the bulk
executor preserves the row count and every row's identity (internal id,
account, provider message id) positionally, classification does too, and
sync keeps a row for every pre-existing identity; delete is only ever the
soft mark `isDeleted := true`, preserving the row's identity; and once
`isDeleted` is set the row fails the default classification selector and
is excluded from every bulk selector that does not explicitly include
deleted items. -/
theorem soft_delete_only (acct : Nat) (provOk : Nat → Bool) (op : OpType)
    (rows : List Email) (tids : List Nat) (batch : List Nat)
    (resp : Option (Nat → Option ClassEntry)) (qp : Query → Provider) (c : SyncCall)
    (st : Store) :
    ((execute acct provOk op rows tids).1.length = rows.length) ∧
    (∀ i : Nat, (((execute acct provOk op rows tids).1[i]?).map rowKey) =
        ((rows[i]?).map rowKey)) ∧
    (∀ i : Nat, (((classifyBatch rows batch resp).1[i]?).map rowKey) =
        ((rows[i]?).map rowKey)) ∧
    (∀ e ∈ st.rows, ∃ e' ∈ (sync acct qp c st).1.rows, rowKey e' = rowKey e) ∧
    (∀ e : Email, (applyOp OpType.delete e).isDeleted = true ∧
        rowKey (applyOp OpType.delete e) = rowKey e) ∧
    (∀ e : Email, e.isDeleted = true →
        defaultSelector e = false ∧
        e ∉ rows.filter defaultSelector ∧
        ∀ pred : Email → Bool, e ∉ bulkSelector false pred rows) := by
  refine ⟨execute_length_foldl acct provOk op tids _,
    fun i => execute_rowKey_foldl acct provOk op tids _ i,
    fun i => classifyBatch_rowKey rows batch resp i,
    fun e he => sync_preserves_rows acct qp c st e he,
    fun e => ⟨rfl, rfl⟩, ?_⟩
  intro e hdel
  have hsel : defaultSelector e = false := by
    simp [defaultSelector, hdel]
  refine ⟨hsel, ?_, ?_⟩
  · intro hmem
    have := (List.mem_filter.1 hmem).2
    rw [hsel] at this
    cases this
  · intro pred hmem
    have := (List.mem_filter.1 hmem).2
    simp [bulkSelector, hdel] at this

/-- Witness for C6: the pipeline over concrete rows — the deleted row is
excluded from both selectors, and sync/classify/bulk keep every row. -/
theorem soft_delete_only_witness :
    defaultSelector testDeletedEmail = false ∧
    testDeletedEmail ∉ testRows9.filter defaultSelector ∧
    testDeletedEmail ∉ bulkSelector false (fun _ => true) testRows9 ∧
    (∃ e' ∈ (sync 0 (fun _ => testProvider) testIncCall testStore1).1.rows,
        rowKey e' = rowKey testClassifiedEmail) := by
  have h := soft_delete_only 0 testProvOk OpType.delete testRows9 [1] [1] none
    (fun _ => testProvider) testIncCall testStore1
  obtain ⟨-, -, -, hsync, -, hexcl⟩ := h
  obtain ⟨hsel, hnf, hbulk⟩ := hexcl testDeletedEmail (by decide)
  exact ⟨hsel, hnf, hbulk (fun _ => true),
    hsync testClassifiedEmail (List.mem_singleton_self _)⟩

/-- C10: for every error the frontend API client's response interceptor
receives with HTTP status 401 — whatever endpoint produced it — the
stored auth token is removed from localStorage, the browser is redirected
to /login, and the original error is still rejected to the caller
unchanged. -/
theorem interceptor_401_clears_token (st : BrowserState) (err : ApiError)
    (h : err.status = some 401) :
    ((responseInterceptorOnError st err).1.localStorage.all
        (fun kv => kv.1 ≠ "auth_token") = true) ∧
    (responseInterceptorOnError st err).1.locationHref = "/login" ∧
    (responseInterceptorOnError st err).2 = err := by
  unfold responseInterceptorOnError
  rw [if_pos h]
  refine ⟨?_, rfl, rfl⟩
  rw [List.all_eq_true]
  intro kv hkv
  have hm := (List.mem_filter.1 hkv).2
  simpa using hm

/-- Witness for C10: a 401 from the /gmail/emails endpoint clears the
stored token, redirects to /login and rejects the original error. -/
theorem interceptor_401_clears_token_witness :
    ((responseInterceptorOnError
        { localStorage := [("auth_token", "tok"), ("theme", "dark")],
          locationHref := "/dashboard" }
        { endpoint := "/gmail/emails", status := some 401 }).1.localStorage.all
      (fun kv => kv.1 ≠ "auth_token") = true) ∧
    (responseInterceptorOnError
        { localStorage := [("auth_token", "tok"), ("theme", "dark")],
          locationHref := "/dashboard" }
        { endpoint := "/gmail/emails", status := some 401 }).1.locationHref = "/login" ∧
    (responseInterceptorOnError
        { localStorage := [("auth_token", "tok"), ("theme", "dark")],
          locationHref := "/dashboard" }
        { endpoint := "/gmail/emails", status := some 401 }).2 =
      { endpoint := "/gmail/emails", status := some 401 } :=
  interceptor_401_clears_token
    { localStorage := [("auth_token", "tok"), ("theme", "dark")],
      locationHref := "/dashboard" }
    { endpoint := "/gmail/emails", status := some 401 } rfl

end ScrapIt
